import Mathlib

/-!
Verification of the GISTEMP-rewrite spatial interpolation and urban-adjustment
core against its specification.

The Python source is shallowly embedded: floats become real numbers (`ℝ`),
Python dicts with string keys become association lists (`List (String × ℝ)`),
missing values (NaN entries of a pandas series) become `Option ℝ` with `none`
for missing, and numpy arrays / pandas series become lists.  Where a claim is
specifically about IEEE NaN propagation, a dedicated model `RF := Option ℝ`
with `none` read as NaN is used, together with explicit exception semantics
for `math.sqrt` on negative arguments.
-/

set_option maxHeartbeats 1000000
set_option linter.unusedVariables false

/-- Association-list model of a Python dict mapping station identifiers to
real-valued weights.  Insertion order is preserved, as in Python. -/
abbrev WeightMap := List (String × ℝ)

namespace Utilities

/-- Python `sum(d.values())` for a weight map. -/
def valuesSum (d : WeightMap) : ℝ := (d.map (fun kv => kv.2)).sum

/-- Embeds `tools/utilities.py::normalize_dict_values` (textually duplicated in
`steps/step3.py`): compute the sum of the dict's values; if it is nonzero,
divide every value by it, otherwise return the input dict unchanged. -/
noncomputable def normalize_dict_values (d : WeightMap) : WeightMap :=
  let total := valuesSum d
  if total ≠ 0 then d.map (fun kv => (kv.1, kv.2 / total)) else d

/-- Embeds `steps/step3.py::linearly_decreasing_weight` (imported by
`steps/step2.py` and `steps/step4.py` from `tools.utilities`): clamp the
distance into `[0, max_distance]` and return `1 - distance / max_distance`. -/
noncomputable def linearly_decreasing_weight (distance max_distance : ℝ) : ℝ :=
  let distance := max 0 (min distance max_distance)
  1 - distance / max_distance

theorem valuesSum_nil : valuesSum [] = 0 := rfl

theorem valuesSum_cons (kv : String × ℝ) (tl : WeightMap) :
    valuesSum (kv :: tl) = kv.2 + valuesSum tl := by
  simp [valuesSum]

theorem valuesSum_map_div (d : WeightMap) (t : ℝ) :
    valuesSum (d.map (fun kv => (kv.1, kv.2 / t))) = valuesSum d / t := by
  induction d with
  | nil => simp [valuesSum]
  | cons kv tl ih =>
      simp only [List.map_cons, valuesSum_cons] at *
      rw [ih, add_div]

theorem valuesSum_append (d e : WeightMap) :
    valuesSum (d ++ e) = valuesSum d + valuesSum e := by
  simp [valuesSum]

theorem normalize_of_ne_zero (d : WeightMap) (hne : valuesSum d ≠ 0) :
    normalize_dict_values d = d.map (fun kv => (kv.1, kv.2 / valuesSum d)) := by
  unfold normalize_dict_values
  simp [hne]

theorem normalize_of_eq_zero (d : WeightMap) (h0 : valuesSum d = 0) :
    normalize_dict_values d = d := by
  unfold normalize_dict_values
  simp [h0]

theorem valuesSum_normalize (d : WeightMap) (hne : valuesSum d ≠ 0) :
    valuesSum (normalize_dict_values d) = 1 := by
  rw [normalize_of_ne_zero d hne, valuesSum_map_div, div_self hne]

theorem normalize_keys (d : WeightMap) :
    (normalize_dict_values d).map Prod.fst = d.map Prod.fst := by
  by_cases hne : valuesSum d = 0
  · rw [normalize_of_eq_zero d hne]
  · rw [normalize_of_ne_zero d hne]; simp

theorem normalize_nonneg (d : WeightMap) (hnn : ∀ kv ∈ d, 0 ≤ kv.2) :
    ∀ kv ∈ normalize_dict_values d, 0 ≤ kv.2 := by
  by_cases hne : valuesSum d = 0
  · rw [normalize_of_eq_zero d hne]; exact hnn
  · rw [normalize_of_ne_zero d hne]
    intro kv hkv
    simp only [List.mem_map] at hkv
    obtain ⟨kv0, hmem, hkv0⟩ := hkv
    subst hkv0
    have hnn0 : 0 ≤ valuesSum d := by
      unfold valuesSum
      apply List.sum_nonneg
      intro x hx
      simp only [List.mem_map] at hx
      obtain ⟨kv1, hmem1, hkv1⟩ := hx
      subst hkv1
      exact hnn kv1 hmem1
    exact div_nonneg (hnn kv0 hmem) hnn0

end Utilities

/-- C9: for a mapping of non-negative values with nonzero total, the
normalizer keeps the keys and divides each value by the total, so the result
sums to 1; for a zero total (including the empty mapping) it returns the
input unchanged. -/
theorem C9_normalize_dict_values_spec (d : WeightMap)
    (hnn : ∀ kv ∈ d, 0 ≤ kv.2) :
    (Utilities.valuesSum d ≠ 0 →
      Utilities.normalize_dict_values d
          = d.map (fun kv => (kv.1, kv.2 / Utilities.valuesSum d))
        ∧ (Utilities.normalize_dict_values d).map Prod.fst = d.map Prod.fst
        ∧ Utilities.valuesSum (Utilities.normalize_dict_values d) = 1)
    ∧ (Utilities.valuesSum d = 0 → Utilities.normalize_dict_values d = d) := by
  clear hnn
  exact ⟨fun hne => ⟨Utilities.normalize_of_ne_zero d hne,
      Utilities.normalize_keys d, Utilities.valuesSum_normalize d hne⟩,
    Utilities.normalize_of_eq_zero d⟩

/-- Witness for C9 at the concrete mapping `{a ↦ 1, b ↦ 3}`. -/
theorem C9_witness :
    Utilities.normalize_dict_values [("a", (1:ℝ)), ("b", 3)]
      = [("a", 1/4), ("b", 3/4)] := by
  have hnn : ∀ kv ∈ [("a", (1:ℝ)), ("b", 3)], 0 ≤ kv.2 := by
    intro kv hkv
    simp only [List.mem_cons, List.not_mem_nil, or_false] at hkv
    rcases hkv with h | h <;> subst h <;> norm_num
  have hsum : Utilities.valuesSum [("a", (1:ℝ)), ("b", 3)] = 4 := by
    simp [Utilities.valuesSum]; norm_num
  have h := (C9_normalize_dict_values_spec [("a", (1:ℝ)), ("b", 3)] hnn).1
    (by rw [hsum]; norm_num)
  rw [h.1, hsum]
  simp only [List.map_cons, List.map_nil]

/-- C10: the normalizer is idempotent on non-negative mappings with positive
sum: after one application the values sum to 1, so a second application
divides by 1 and changes nothing (exact arithmetic). -/
theorem C10_normalize_idempotent (d : WeightMap)
    (hnn : ∀ kv ∈ d, 0 ≤ kv.2) (hpos : 0 < Utilities.valuesSum d) :
    Utilities.normalize_dict_values (Utilities.normalize_dict_values d)
      = Utilities.normalize_dict_values d := by
  clear hnn
  have hne : Utilities.valuesSum d ≠ 0 := ne_of_gt hpos
  have hsum1 : Utilities.valuesSum (Utilities.normalize_dict_values d) = 1 :=
    Utilities.valuesSum_normalize d hne
  rw [Utilities.normalize_of_ne_zero (Utilities.normalize_dict_values d)
    (by rw [hsum1]; norm_num), hsum1]
  simp

/-- Witness for C10 at the concrete mapping `{a ↦ 1, b ↦ 3}`. -/
theorem C10_witness :
    Utilities.normalize_dict_values
        (Utilities.normalize_dict_values [("a", (1:ℝ)), ("b", 3)])
      = Utilities.normalize_dict_values [("a", (1:ℝ)), ("b", 3)] := by
  apply C10_normalize_idempotent
  · intro kv hkv
    simp only [List.mem_cons, List.not_mem_nil, or_false] at hkv
    rcases hkv with h | h <;> subst h <;> norm_num
  · have hsum : Utilities.valuesSum [("a", (1:ℝ)), ("b", 3)] = 4 := by
      simp [Utilities.valuesSum]; norm_num
    rw [hsum]; norm_num

namespace Step2

/-- Embeds numpy `np.arange(start, stop, step)` over exact rationals for a
nonzero step: the element count is `max(ceil((stop - start) / step), 0)` and
the k-th element is `start + step * k`.  All values generated by
`create_grid` are integer-valued, hence exactly representable in float32. -/
def arange (start stop step : ℚ) : List ℚ :=
  (List.range (Int.toNat ⌈(stop - start) / step⌉)).map
    (fun k : ℕ => start + step * (k : ℚ))

/-- Embeds `steps/step2.py::create_grid`: latitudes from 88 down by 2 while
above -90, longitudes from 0 up by 2 while below 360, their full Cartesian
product in `itertools.product` order, followed by the two polar cells. -/
def create_grid : List (ℚ × ℚ) :=
  let lat_values := arange 88 (-90) (-2)
  let lon_values := arange 0 360 2
  let polar_coordinates : List (ℚ × ℚ) := [(90, 0), (-90, 0)]
  lat_values ×ˢ lon_values ++ polar_coordinates

theorem arange_lat :
    arange 88 (-90) (-2)
      = (List.range 89).map (fun i : ℕ => (88:ℚ) - 2 * (i : ℚ)) := by
  unfold arange
  have hq : ((-90:ℚ) - 88) / (-2) = ((89:ℤ):ℚ) := by norm_num
  rw [hq, Int.ceil_intCast]
  apply List.map_congr_left
  intro i _
  ring

theorem arange_lon :
    arange 0 360 2 = (List.range 180).map (fun i : ℕ => (2:ℚ) * (i : ℚ)) := by
  unfold arange
  have hq : ((360:ℚ) - 0) / 2 = ((180:ℤ):ℚ) := by norm_num
  rw [hq, Int.ceil_intCast]
  apply List.map_congr_left
  intro i _
  ring

end Step2

/-- C5: the grid is the Cartesian product of 89 latitudes from 88 down to -88
in steps of -2 with 180 longitudes from 0 up to 358 in steps of 2, followed by
the two polar cells, 16022 cells in all, exactly two of which have latitude
90 or -90. -/
theorem C5_create_grid :
    Step2.create_grid.length = 16022
    ∧ Step2.create_grid
        = ((List.range 89).map (fun i : ℕ => (88:ℚ) - 2 * (i : ℚ)))
            ×ˢ ((List.range 180).map (fun i : ℕ => (2:ℚ) * (i : ℚ)))
          ++ [(90, 0), (-90, 0)]
    ∧ Step2.create_grid.countP (fun p => decide (p.1 = 90 ∨ p.1 = -90)) = 2 := by
  have heq : Step2.create_grid
      = ((List.range 89).map (fun i : ℕ => (88:ℚ) - 2 * (i : ℚ)))
          ×ˢ ((List.range 180).map (fun i : ℕ => (2:ℚ) * (i : ℚ)))
        ++ [(90, 0), (-90, 0)] := by
    unfold Step2.create_grid
    rw [Step2.arange_lat, Step2.arange_lon]
  refine ⟨?_, heq, ?_⟩
  · rw [heq]
    simp [List.length_product]
  · rw [heq, List.countP_append]
    have hprod : (((List.range 89).map (fun i : ℕ => (88:ℚ) - 2 * (i : ℚ)))
        ×ˢ ((List.range 180).map (fun i : ℕ => (2:ℚ) * (i : ℚ)))).countP
          (fun p => decide (p.1 = 90 ∨ p.1 = -90)) = 0 := by
      rw [List.countP_eq_zero]
      intro p hp
      rcases p with ⟨a, b⟩
      rw [List.mem_product] at hp
      obtain ⟨ha, _⟩ := hp
      simp only [List.mem_map, List.mem_range] at ha
      obtain ⟨i, hi, hai⟩ := ha
      subst hai
      simp only [decide_eq_true_eq, not_or]
      constructor
      · intro h
        have hnn : (0:ℚ) ≤ (i : ℚ) := by positivity
        linarith
      · intro h
        have hiq : (i : ℚ) = 89 := by linarith
        have : i = 89 := by exact_mod_cast hiq
        omega
    rw [hprod]
    decide

/-- Two-argument arctangent with the semantics of `math.atan2` /
`np.arctan2` on non-NaN real arguments. -/
noncomputable def atan2 (y x : ℝ) : ℝ :=
  if 0 < x then Real.arctan (y / x)
  else if x < 0 then
    if 0 ≤ y then Real.arctan (y / x) + Real.pi
    else Real.arctan (y / x) - Real.pi
  else
    if 0 < y then Real.pi / 2
    else if y < 0 then -(Real.pi / 2)
    else 0

/-- Degrees to radians, Python `math.radians` / `np.radians`. -/
noncomputable def radians (x : ℝ) : ℝ := x * Real.pi / 180

theorem atan2_nonneg (y x : ℝ) (hy : 0 ≤ y) : 0 ≤ atan2 y x := by
  have hpi := Real.pi_pos
  unfold atan2
  rcases lt_trichotomy x 0 with hx | hx | hx
  · rw [if_neg (by linarith), if_pos hx, if_pos hy]
    have := Real.neg_pi_div_two_lt_arctan (y / x)
    linarith
  · subst hx
    rw [if_neg (lt_irrefl 0), if_neg (lt_irrefl 0)]
    rcases eq_or_lt_of_le hy with hy0 | hy0
    · rw [if_neg (by rw [← hy0]; exact lt_irrefl 0),
        if_neg (by rw [← hy0]; exact lt_irrefl 0)]
    · rw [if_pos hy0]
      linarith
  · rw [if_pos hx, ← Real.arctan_zero]
    exact Real.arctan_strictMono.monotone (div_nonneg hy (le_of_lt hx))

theorem atan2_zero_of_pos (x : ℝ) (hx : 0 < x) : atan2 0 x = 0 := by
  unfold atan2
  rw [if_pos hx, zero_div, Real.arctan_zero]

theorem atan2_of_pos_of_zero (y : ℝ) (hy : 0 < y) : atan2 y 0 = Real.pi / 2 := by
  unfold atan2
  rw [if_neg (lt_irrefl 0), if_neg (lt_irrefl 0), if_pos hy]

theorem sin_half_sq (x : ℝ) :
    Real.sin (x / 2) ^ 2 = 1 / 2 - Real.cos x / 2 := by
  have h2 : Real.cos (x / 2) ^ 2 = 1 / 2 + Real.cos (2 * (x / 2)) / 2 :=
    Real.cos_sq (x / 2)
  have hx : 2 * (x / 2) = x := by ring
  rw [hx] at h2
  have h1 : Real.sin (x / 2) ^ 2 = 1 - Real.cos (x / 2) ^ 2 := Real.sin_sq (x / 2)
  rw [h1, h2]
  ring

theorem cos_mul_cos (a b : ℝ) :
    Real.cos a * Real.cos b = (Real.cos (a - b) + Real.cos (a + b)) / 2 := by
  have h1 := Real.cos_add a b
  have h2 := Real.cos_sub a b
  linarith

/-- In exact real arithmetic the haversine intermediate
`sin²(Δφ/2) + cos φ₁ · cos φ₂ · sin²(Δλ/2)` always lies in `[0, 1]`,
for arbitrary real inputs. -/
theorem hav_a_mem (p1 p2 l1 l2 : ℝ) :
    0 ≤ Real.sin (|p2 - p1| / 2) ^ 2
        + Real.cos p1 * Real.cos p2 * Real.sin (|l2 - l1| / 2) ^ 2
    ∧ Real.sin (|p2 - p1| / 2) ^ 2
        + Real.cos p1 * Real.cos p2 * Real.sin (|l2 - l1| / 2) ^ 2 ≤ 1 := by
  set s := Real.sin (|l2 - l1| / 2) ^ 2 with hs
  have hs0 : 0 ≤ s := sq_nonneg _
  have hs1 : s ≤ 1 := Real.sin_sq_le_one _
  set A := Real.sin (|p2 - p1| / 2) ^ 2 with hA
  set B := Real.cos p1 * Real.cos p2 with hB
  have hA0 : 0 ≤ A := sq_nonneg _
  have hA1 : A ≤ 1 := Real.sin_sq_le_one _
  have hAval : A = 1 / 2 - Real.cos (p2 - p1) / 2 := by
    rw [hA, sin_half_sq, Real.cos_abs]
  have hBval : B = (Real.cos (p1 - p2) + Real.cos (p1 + p2)) / 2 :=
    cos_mul_cos p1 p2
  have hcos_flip : Real.cos (p1 - p2) = Real.cos (p2 - p1) := by
    rw [← Real.cos_neg (p1 - p2), neg_sub]
  have hAB : A + B = (1 + Real.cos (p1 + p2)) / 2 := by
    rw [hAval, hBval, hcos_flip]; ring
  have hAB0 : 0 ≤ A + B := by
    rw [hAB]
    have := Real.neg_one_le_cos (p1 + p2)
    linarith
  have hAB1 : A + B ≤ 1 := by
    rw [hAB]
    have := Real.cos_le_one (p1 + p2)
    linarith
  have t1 : 0 ≤ A * (1 - s) := mul_nonneg hA0 (by linarith)
  have t2 : 0 ≤ (A + B) * s := mul_nonneg hAB0 hs0
  have t3 : A * (1 - s) ≤ 1 - s := mul_le_of_le_one_left (by linarith) hA1
  have t4 : (A + B) * s ≤ s := mul_le_of_le_one_left hs0 hAB1
  constructor <;> nlinarith [t1, t2, t3, t4]

namespace Utilities

/-- Embeds `tools/utilities.py::haversine_distance` (the vectorized form
used by `calculate_distances` after degree→radian conversion, and called by
`steps/step2.py` and `steps/step4.py`): the haversine formula on its inputs
as given, with the intermediate `a` clipped into `[0, 1]` by `np.clip`. -/
noncomputable def haversine_distance
    (lat1 lon1 lat2 lon2 earth_radius : ℝ) : ℝ :=
  let dlat := |lat2 - lat1|
  let dlon := |lon2 - lon1|
  let a := Real.sin (dlat / 2) ^ 2
    + Real.cos lat1 * Real.cos lat2 * Real.sin (dlon / 2) ^ 2
  let aClip := max 0 (min a 1)
  let c := 2 * atan2 (Real.sqrt aClip) (Real.sqrt (1 - aClip))
  earth_radius * c

end Utilities

namespace Step3

/-- The haversine intermediate `a` computed by
`steps/step3.py::haversine_distance` after converting its degree inputs to
radians. -/
noncomputable def haversineA (lat1 lon1 lat2 lon2 : ℝ) : ℝ :=
  Real.sin (|radians lat2 - radians lat1| / 2) ^ 2
    + Real.cos (radians lat1) * Real.cos (radians lat2)
      * Real.sin (|radians lon2 - radians lon1| / 2) ^ 2

/-- Embeds `steps/step3.py::haversine_distance` (scalar form): convert the
degree inputs to radians, evaluate the haversine formula, and on an
arithmetic-domain error (`math.sqrt` raises `ValueError` on a negative real
argument, caught by the bare `except`) return `station_radius + 1`.  The
guard `0 ≤ a ∧ a ≤ 1` is exactly the condition under which neither
`math.sqrt(a)` nor `math.sqrt(1 - a)` raises. -/
noncomputable def haversine_distance
    (lat1 lon1 lat2 lon2 earth_radius station_radius : ℝ) : ℝ :=
  let a := haversineA lat1 lon1 lat2 lon2
  if 0 ≤ a ∧ a ≤ 1 then
    earth_radius * (2 * atan2 (Real.sqrt a) (Real.sqrt (1 - a)))
  else station_radius + 1

theorem haversineA_mem (lat1 lon1 lat2 lon2 : ℝ) :
    0 ≤ haversineA lat1 lon1 lat2 lon2
    ∧ haversineA lat1 lon1 lat2 lon2 ≤ 1 :=
  hav_a_mem (radians lat1) (radians lat2) (radians lon1) (radians lon2)

end Step3

/-- The distance algorithm exactly as the specification states it (§4.1):
convert degrees to radians, form the haversine `a` clipped to `[0, 1]`,
set `c = 2·atan2(√a, √(1-a))`, and return `earthRadius · c`. -/
noncomputable def haversineSpec (lat1 lon1 lat2 lon2 earth_radius : ℝ) : ℝ :=
  let a := Step3.haversineA lat1 lon1 lat2 lon2
  let aClip := max 0 (min a 1)
  earth_radius * (2 * atan2 (Real.sqrt aClip) (Real.sqrt (1 - aClip)))

/-- C4: the scalar distance operation converts its degree inputs to radians
and returns `earthRadius · 2·atan2(√a, √(1-a))` for the clipped haversine
`a` — the clip and the exception guard are no-ops in exact arithmetic since
`0 ≤ a ≤ 1` always holds; the vectorized form applied to the pre-converted
radian inputs computes the same value; and the result is non-negative for
every input when the earth radius is non-negative. -/
theorem C4_haversine_distance_spec (lat1 lon1 lat2 lon2 R S : ℝ)
    (hR : 0 ≤ R) :
    Step3.haversine_distance lat1 lon1 lat2 lon2 R S
        = haversineSpec lat1 lon1 lat2 lon2 R
    ∧ Utilities.haversine_distance (radians lat1) (radians lon1)
        (radians lat2) (radians lon2) R
        = haversineSpec lat1 lon1 lat2 lon2 R
    ∧ 0 ≤ Step3.haversine_distance lat1 lon1 lat2 lon2 R S := by
  obtain ⟨hA0, hA1⟩ := Step3.haversineA_mem lat1 lon1 lat2 lon2
  have hclip : max 0 (min (Step3.haversineA lat1 lon1 lat2 lon2) 1)
      = Step3.haversineA lat1 lon1 lat2 lon2 := by
    rw [min_eq_left hA1, max_eq_right hA0]
  have hstep3 : Step3.haversine_distance lat1 lon1 lat2 lon2 R S
      = R * (2 * atan2 (Real.sqrt (Step3.haversineA lat1 lon1 lat2 lon2))
          (Real.sqrt (1 - Step3.haversineA lat1 lon1 lat2 lon2))) := by
    unfold Step3.haversine_distance
    rw [if_pos ⟨hA0, hA1⟩]
  have hspec : haversineSpec lat1 lon1 lat2 lon2 R
      = R * (2 * atan2 (Real.sqrt (Step3.haversineA lat1 lon1 lat2 lon2))
          (Real.sqrt (1 - Step3.haversineA lat1 lon1 lat2 lon2))) := by
    simp only [haversineSpec]
    rw [hclip]
  refine ⟨by rw [hstep3, hspec], ?_, ?_⟩
  · have hutil : Utilities.haversine_distance (radians lat1) (radians lon1)
        (radians lat2) (radians lon2) R
        = R * (2 * atan2 (Real.sqrt (Step3.haversineA lat1 lon1 lat2 lon2))
            (Real.sqrt (1 - Step3.haversineA lat1 lon1 lat2 lon2))) := by
      simp only [Utilities.haversine_distance]
      have h : Real.sin (|radians lat2 - radians lat1| / 2) ^ 2
          + Real.cos (radians lat1) * Real.cos (radians lat2)
            * Real.sin (|radians lon2 - radians lon1| / 2) ^ 2
          = Step3.haversineA lat1 lon1 lat2 lon2 := rfl
      rw [h, hclip]
    rw [hutil, hspec]
  · rw [hstep3]
    exact mul_nonneg hR (mul_nonneg (by norm_num)
      (atan2_nonneg _ _ (Real.sqrt_nonneg _)))

/-- Witness for C4 at coincident points on the equator: the hypotheses hold
at radius 6371 and the computed distance evaluates to 0. -/
theorem C4_witness :
    (Step3.haversine_distance 0 0 0 0 6371 1200
        = haversineSpec 0 0 0 0 6371
      ∧ Utilities.haversine_distance (radians 0) (radians 0) (radians 0)
          (radians 0) 6371
          = haversineSpec 0 0 0 0 6371
      ∧ 0 ≤ Step3.haversine_distance 0 0 0 0 6371 1200)
    ∧ Step3.haversine_distance 0 0 0 0 6371 1200 = 0 := by
  refine ⟨C4_haversine_distance_spec 0 0 0 0 6371 1200 (by norm_num), ?_⟩
  have hA : Step3.haversineA 0 0 0 0 = 0 := by
    unfold Step3.haversineA radians
    simp
  unfold Step3.haversine_distance
  rw [hA]
  rw [if_pos ⟨le_refl 0, by norm_num⟩]
  rw [Real.sqrt_zero, sub_zero, Real.sqrt_one, atan2_zero_of_pos 1 one_pos]
  ring

/-- Model of a Python float that may be NaN: `none` is NaN, `some x` the
real value `x`.  Used where a claim is specifically about NaN behaviour. -/
abbrev RF := Option ℝ

/-- Unary float operation: NaN propagates (IEEE semantics of `math.sin`,
`math.cos`, `math.radians`, `abs` applied to NaN). -/
def rfUn (f : ℝ → ℝ) : RF → RF := Option.map f

/-- Binary float operation: NaN propagates. -/
def rfBin (f : ℝ → ℝ → ℝ) : RF → RF → RF
  | some x, some y => some (f x y)
  | _, _ => none

/-- Python `math.sqrt`: raises `ValueError` on a negative real argument
(modelled as `Except.error`), silently returns NaN on a NaN argument, and
otherwise returns the square root. -/
noncomputable def rfSqrt : RF → Except Unit RF
  | none => Except.ok none
  | some x => if x < 0 then Except.error () else Except.ok (some (Real.sqrt x))

/-- The callers' nearby test `distance <= radius` over the NaN model: false
whenever the distance is NaN (IEEE comparison semantics). -/
def rfLe (x : RF) (r : ℝ) : Prop := ∃ v, x = some v ∧ v ≤ r

/-- Strict `distance > radius` over the NaN model: false when the distance
is NaN. -/
def rfGt (x : RF) (r : ℝ) : Prop := ∃ v, x = some v ∧ r < v

namespace Step3

/-- Embeds `steps/step3.py::haversine_distance` over the NaN-aware float
model: degree→radian conversion and the haversine formula with every
arithmetic operation propagating NaN, and the bare `except` returning
`station_radius + 1` exactly when `math.sqrt` raises. -/
noncomputable def haversineF (lat1 lon1 lat2 lon2 : RF)
    (earth_radius station_radius : ℝ) : RF :=
  let rlat1 := rfUn radians lat1
  let rlon1 := rfUn radians lon1
  let rlat2 := rfUn radians lat2
  let rlon2 := rfUn radians lon2
  let dlat := rfUn abs (rfBin Sub.sub rlat2 rlat1)
  let dlon := rfUn abs (rfBin Sub.sub rlon2 rlon1)
  let a := rfBin Add.add
    (rfUn (fun t => Real.sin (t / 2) ^ 2) dlat)
    (rfBin Mul.mul
      (rfBin Mul.mul (rfUn Real.cos rlat1) (rfUn Real.cos rlat2))
      (rfUn (fun t => Real.sin (t / 2) ^ 2) dlon))
  match rfSqrt a, rfSqrt (rfBin Sub.sub (some 1) a) with
  | Except.ok sa, Except.ok sb =>
      rfBin Mul.mul (some earth_radius)
        (rfBin Mul.mul (some 2) (rfBin atan2 sa sb))
  | _, _ => some (station_radius + 1)

end Step3

/-- C7 counterexample: with a NaN first coordinate the scalar distance
computation returns NaN itself — Python's math functions propagate NaN
without raising, so the `except` sentinel is not produced — and NaN is not
strictly greater than the radius in use (1200 here). -/
theorem C7_counterexample :
    Step3.haversineF none (some 0) (some 0) (some 0) 6371 1200 = none
    ∧ ¬ rfGt (Step3.haversineF none (some 0) (some 0) (some 0) 6371 1200)
        1200 := by
  have h : Step3.haversineF none (some 0) (some 0) (some 0) 6371 1200
      = none := rfl
  refine ⟨h, ?_⟩
  rintro ⟨v, hv, _⟩
  rw [h] at hv
  exact Option.noConfusion hv

theorem rfUn_none (f : ℝ → ℝ) : rfUn f none = none := rfl

theorem rfBin_none_left (f : ℝ → ℝ → ℝ) (y : RF) : rfBin f none y = none := by
  cases y <;> rfl

theorem rfBin_none_right (f : ℝ → ℝ → ℝ) (x : RF) : rfBin f x none = none := by
  cases x <;> rfl

theorem rfSqrt_none : rfSqrt none = Except.ok none := rfl

/-- C7 amended: a NaN coordinate propagates to a NaN distance — no
exception is raised and no sentinel is produced — and NaN fails both the
callers' `distance ≤ radius` test (so the pair is classified as not nearby)
and any `distance > radius` comparison; for real (non-NaN) coordinates the
computation never raises either, because `0 ≤ a ≤ 1` holds in exact
arithmetic, and the result is the real haversine value; the
`station_radius + 1` sentinel is reserved for the float-rounding case in
which `math.sqrt` receives a negative real argument. -/
theorem C7_haversineF_nan_and_real (lat1 lon1 lat2 lon2 : RF) (R S : ℝ) :
    ((lat1 = none ∨ lon1 = none ∨ lat2 = none ∨ lon2 = none) →
      Step3.haversineF lat1 lon1 lat2 lon2 R S = none
      ∧ ¬ rfLe (Step3.haversineF lat1 lon1 lat2 lon2 R S) S
      ∧ ¬ rfGt (Step3.haversineF lat1 lon1 lat2 lon2 R S) S)
    ∧ (∀ a b c d : ℝ, lat1 = some a → lon1 = some b → lat2 = some c →
        lon2 = some d →
        Step3.haversineF lat1 lon1 lat2 lon2 R S
          = some (Step3.haversine_distance a b c d R S)) := by
  constructor
  · intro hnan
    have hnone : Step3.haversineF lat1 lon1 lat2 lon2 R S = none := by
      rcases hnan with h | h | h | h <;> subst h <;>
        simp [Step3.haversineF, rfUn_none, rfBin_none_left, rfBin_none_right,
          rfSqrt_none]
    refine ⟨hnone, ?_, ?_⟩
    · rintro ⟨v, hv, _⟩
      rw [hnone] at hv
      exact Option.noConfusion hv
    · rintro ⟨v, hv, _⟩
      rw [hnone] at hv
      exact Option.noConfusion hv
  · intro a b c d ha hb hc hd
    subst ha; subst hb; subst hc; subst hd
    obtain ⟨hA0, hA1⟩ := Step3.haversineA_mem a b c d
    have h0' : ¬ (Step3.haversineA a b c d < 0) := not_lt.2 hA0
    have h1' : ¬ (1 - Step3.haversineA a b c d < 0) :=
      not_lt.2 (by linarith)
    have hrhs : Step3.haversine_distance a b c d R S
        = R * (2 * atan2 (Real.sqrt (Step3.haversineA a b c d))
            (Real.sqrt (1 - Step3.haversineA a b c d))) := by
      unfold Step3.haversine_distance
      rw [if_pos ⟨hA0, hA1⟩]
    rw [hrhs]
    have hstep : Step3.haversineF (some a) (some b) (some c) (some d) R S
        = (match rfSqrt (some (Step3.haversineA a b c d)),
                 rfSqrt (some (1 - Step3.haversineA a b c d)) with
           | Except.ok sa, Except.ok sb =>
               rfBin Mul.mul (some R)
                 (rfBin Mul.mul (some 2) (rfBin atan2 sa sb))
           | _, _ => some (S + 1)) := rfl
    rw [hstep]
    have hsq1 : rfSqrt (some (Step3.haversineA a b c d))
        = Except.ok (some (Real.sqrt (Step3.haversineA a b c d))) := by
      simp only [rfSqrt]
      rw [if_neg h0']
    have hsq2 : rfSqrt (some (1 - Step3.haversineA a b c d))
        = Except.ok (some (Real.sqrt (1 - Step3.haversineA a b c d))) := by
      simp only [rfSqrt]
      rw [if_neg h1']
    rw [hsq1, hsq2]
    rfl

/-- Witness for C7 at concrete inputs: a NaN latitude against the origin,
and the all-real origin pair. -/
theorem C7_witness :
    (Step3.haversineF none (some 1) (some 2) (some 3) 6371 1200 = none
      ∧ ¬ rfLe (Step3.haversineF none (some 1) (some 2) (some 3) 6371 1200)
          1200
      ∧ ¬ rfGt (Step3.haversineF none (some 1) (some 2) (some 3) 6371 1200)
          1200)
    ∧ Step3.haversineF (some 0) (some 0) (some 0) (some 0) 6371 1200
        = some (Step3.haversine_distance 0 0 0 0 6371 1200) :=
  ⟨(C7_haversineF_nan_and_real none (some 1) (some 2) (some 3) 6371 1200).1
      (Or.inl rfl),
   (C7_haversineF_nan_and_real (some 0) (some 0) (some 0) (some 0) 6371
      1200).2 0 0 0 0 rfl rfl rfl rfl⟩

theorem valuesSum_eq_zero_iff_of_nonneg (d : WeightMap)
    (hnn : ∀ kv ∈ d, 0 ≤ kv.2) :
    Utilities.valuesSum d = 0 ↔ ∀ kv ∈ d, kv.2 = 0 := by
  induction d with
  | nil => simp [Utilities.valuesSum]
  | cons kv tl ih =>
      have hkv : 0 ≤ kv.2 := hnn kv (List.mem_cons_self kv tl)
      have htl : ∀ kv ∈ tl, 0 ≤ kv.2 :=
        fun x hx => hnn x (List.mem_cons_of_mem kv hx)
      have hsumtl : 0 ≤ Utilities.valuesSum tl := by
        unfold Utilities.valuesSum
        apply List.sum_nonneg
        intro x hx
        simp only [List.mem_map] at hx
        obtain ⟨kv1, hmem1, hkv1⟩ := hx
        subst hkv1
        exact htl kv1 hmem1
      rw [Utilities.valuesSum_cons]
      constructor
      · intro h0
        have hz1 : kv.2 = 0 := by linarith
        have hz2 : Utilities.valuesSum tl = 0 := by linarith
        intro x hx
        rcases List.mem_cons.mp hx with hx0 | hx0
        · rw [hx0]; exact hz1
        · exact (ih htl).mp hz2 x hx0
      · intro hall
        have h1 : kv.2 = 0 := hall kv (List.mem_cons_self kv tl)
        have h2 : Utilities.valuesSum tl = 0 :=
          (ih htl).mpr (fun x hx => hall x (List.mem_cons_of_mem kv hx))
        rw [h1, h2, add_zero]

theorem linearly_decreasing_weight_nonneg (d md : ℝ) (h : 0 < md) :
    0 ≤ Utilities.linearly_decreasing_weight d md := by
  unfold Utilities.linearly_decreasing_weight
  have hc1 : max 0 (min d md) ≤ md :=
    max_le (le_of_lt h) (min_le_right d md)
  have hd1 : max 0 (min d md) / md ≤ 1 := (div_le_one h).mpr hc1
  linarith

/-- A normalized weight mapping built from non-negative raw weights is
non-negative, and either sums to exactly 1 or consists entirely of zeros
(the latter exactly when the raw weights summed to zero, in which case
`normalize_dict_values` returned them unchanged). -/
theorem normalized_map_cases (raw : WeightMap)
    (hnn : ∀ kv ∈ raw, 0 ≤ kv.2) :
    (∀ kv ∈ Utilities.normalize_dict_values raw, 0 ≤ kv.2)
    ∧ (Utilities.valuesSum (Utilities.normalize_dict_values raw) = 1
       ∨ ∀ kv ∈ Utilities.normalize_dict_values raw, kv.2 = 0) := by
  by_cases h : Utilities.valuesSum raw = 0
  · rw [Utilities.normalize_of_eq_zero raw h]
    exact ⟨hnn, Or.inr ((valuesSum_eq_zero_iff_of_nonneg raw hnn).mp h)⟩
  · exact ⟨Utilities.normalize_nonneg raw hnn,
      Or.inl (Utilities.valuesSum_normalize raw h)⟩

/-- A station row as consumed by steps 2–4: identifier, coordinates in
degrees, night-brightness value (the `Value` column, 0 where unused), and
the monthly time series with `none` for a missing (NaN) month. -/
structure StationRow where
  id : String
  lat : ℝ
  lon : ℝ
  value : ℤ
  series : List (Option ℝ)

namespace Step2

/-- One iteration of the `nearby_stations` loop in `steps/step2.py`: the
raw linear-falloff weights of the stations within `max_distance` of the
cell center.  As in the source, `tools.utilities.haversine_distance` is
applied to the degree-valued coordinates as given. -/
noncomputable def cellRawWeights (stations : List StationRow)
    (centerLat centerLon max_distance earth_radius : ℝ) : WeightMap :=
  (stations.filter (fun s =>
      decide (Utilities.haversine_distance centerLat centerLon s.lat s.lon
        earth_radius ≤ max_distance))).map
    (fun s => (s.id, Utilities.linearly_decreasing_weight
      (Utilities.haversine_distance centerLat centerLon s.lat s.lon
        earth_radius) max_distance))

/-- The normalized per-cell station-weight mapping stored in the
`Nearby_Stations` column for one grid cell. -/
noncomputable def station_weights_for_cell (stations : List StationRow)
    (centerLat centerLon max_distance earth_radius : ℝ) : WeightMap :=
  Utilities.normalize_dict_values
    (cellRawWeights stations centerLat centerLon max_distance earth_radius)

/-- Embeds `steps/step2.py::nearby_stations`: the per-cell weight mappings
for all grid cells. -/
noncomputable def nearby_stations (grid : List (ℝ × ℝ))
    (stations : List StationRow) (max_distance earth_radius : ℝ) :
    List WeightMap :=
  grid.map (fun cell =>
    station_weights_for_cell stations cell.1 cell.2 max_distance
      earth_radius)

end Step2

namespace Step4

/-- The rural stations of a station table: brightness value not above the
threshold (`Urban == False` in `steps/step4.py`). -/
def df_rural_of (df : List StationRow) (brightness_threshold : ℤ) :
    List StationRow :=
  df.filter (fun s => ! decide (brightness_threshold < s.value))

/-- The urban stations: brightness value above the threshold. -/
def df_urban_of (df : List StationRow) (brightness_threshold : ℤ) :
    List StationRow :=
  df.filter (fun s => decide (brightness_threshold < s.value))

/-- The raw linear-falloff weights of the rural stations within
`urban_nearby_radius` of one urban station (one iteration of the
`calculate_rural_weights` loop in `steps/step4.py`). -/
noncomputable def ruralRawWeights (df_rural : List StationRow)
    (urbanLat urbanLon earth_radius urban_nearby_radius : ℝ) : WeightMap :=
  (df_rural.filter (fun s =>
      decide (Utilities.haversine_distance urbanLat urbanLon s.lat s.lon
        earth_radius ≤ urban_nearby_radius))).map
    (fun s => (s.id, Utilities.linearly_decreasing_weight
      (Utilities.haversine_distance urbanLat urbanLon s.lat s.lon
        earth_radius) urban_nearby_radius))

/-- Embeds `steps/step4.py::calculate_rural_weights`: pair each urban
station (brightness above the threshold) with the normalized weight mapping
of its rural neighbors within the radius, then keep only the pairs whose
mapping has at least `min_nearby_stations` entries. -/
noncomputable def calculate_rural_weights (df : List StationRow)
    (brightness_threshold : ℤ) (min_nearby_stations : ℕ)
    (earth_radius urban_nearby_radius : ℝ) :
    List (StationRow × WeightMap) :=
  let df_urban := df_urban_of df brightness_threshold
  let df_rural := df_rural_of df brightness_threshold
  (df_urban.map (fun u => (u, Utilities.normalize_dict_values
      (ruralRawWeights df_rural u.lat u.lon earth_radius
        urban_nearby_radius)))).filter
    (fun uw => decide (min_nearby_stations ≤ uw.2.length))

end Step4

/-- C3 amended: every weight mapping produced by the per-cell
nearby-station search and by the per-urban rural-neighbor search has only
non-negative values, and each mapping either sums to exactly 1 or consists
entirely of zero values — the latter happening exactly when all raw
linear-falloff weights are zero (every in-radius station exactly at the
radius boundary), in which case `normalize_dict_values` returns the raw
mapping unchanged. -/
theorem C3_weight_mappings (grid : List (ℝ × ℝ))
    (stations df : List StationRow)
    (max_distance earth_radius urban_nearby_radius : ℝ)
    (brightness_threshold : ℤ) (min_nearby_stations : ℕ)
    (hmax : 0 < max_distance) (hurb : 0 < urban_nearby_radius) :
    (∀ m ∈ Step2.nearby_stations grid stations max_distance earth_radius,
      (∀ kv ∈ m, 0 ≤ kv.2)
      ∧ (Utilities.valuesSum m = 1 ∨ ∀ kv ∈ m, kv.2 = 0))
    ∧ (∀ uw ∈ Step4.calculate_rural_weights df brightness_threshold
          min_nearby_stations earth_radius urban_nearby_radius,
      (∀ kv ∈ uw.2, 0 ≤ kv.2)
      ∧ (Utilities.valuesSum uw.2 = 1 ∨ ∀ kv ∈ uw.2, kv.2 = 0)) := by
  constructor
  · intro m hm
    simp only [Step2.nearby_stations, List.mem_map] at hm
    obtain ⟨cell, hcell, hmeq⟩ := hm
    subst hmeq
    apply normalized_map_cases
    intro kv hkv
    simp only [Step2.cellRawWeights, List.mem_map] at hkv
    obtain ⟨s, hs, hkveq⟩ := hkv
    subst hkveq
    exact linearly_decreasing_weight_nonneg _ _ hmax
  · intro uw huw
    simp only [Step4.calculate_rural_weights, List.mem_filter,
      List.mem_map] at huw
    obtain ⟨⟨u, hu, huweq⟩, _⟩ := huw
    subst huweq
    apply normalized_map_cases
    intro kv hkv
    simp only [Step4.ruralRawWeights, List.mem_map] at hkv
    obtain ⟨s, hs, hkveq⟩ := hkv
    subst hkveq
    exact linearly_decreasing_weight_nonneg _ _ hurb

theorem hav_eval_pi : Utilities.haversine_distance 0 0 0 Real.pi 1
    = Real.pi := by
  have hpi := Real.pi_pos
  simp only [Utilities.haversine_distance]
  have ha : Real.sin (|(0:ℝ) - 0| / 2) ^ 2
      + Real.cos 0 * Real.cos 0 * Real.sin (|Real.pi - 0| / 2) ^ 2
      = 1 := by
    rw [sub_zero, abs_zero, zero_div, Real.sin_zero, sub_zero,
      abs_of_pos hpi, Real.sin_pi_div_two, Real.cos_zero]
    norm_num
  rw [ha, min_self, max_eq_right zero_le_one, sub_self, Real.sqrt_one,
    Real.sqrt_zero, atan2_of_pos_of_zero 1 one_pos]
  ring

theorem weight_eval_pi :
    Utilities.linearly_decreasing_weight Real.pi Real.pi = 0 := by
  have hpi := Real.pi_pos
  simp only [Utilities.linearly_decreasing_weight]
  rw [min_self, max_eq_right hpi.le, div_self (ne_of_gt hpi)]
  ring

theorem cellRaw_eval_pi :
    Step2.cellRawWeights [⟨"s", 0, Real.pi, 0, []⟩] 0 0 Real.pi 1
      = [("s", 0)] := by
  have hcond : decide
      (Utilities.haversine_distance 0 0 0 Real.pi 1 ≤ Real.pi) = true :=
    decide_eq_true (le_of_eq hav_eval_pi)
  simp only [Step2.cellRawWeights, List.filter_cons, List.filter_nil]
  rw [hcond]
  simp only [if_true, List.map_cons, List.map_nil, hav_eval_pi,
    weight_eval_pi]

theorem cell_weights_eval_pi :
    Step2.station_weights_for_cell [⟨"s", 0, Real.pi, 0, []⟩] 0 0 Real.pi 1
      = [("s", 0)] := by
  unfold Step2.station_weights_for_cell
  rw [cellRaw_eval_pi]
  apply Utilities.normalize_of_eq_zero
  simp [Utilities.valuesSum]

/-- C3 counterexample: a single station lying exactly at the radius
boundary of a single grid cell gets raw weight 0, the zero-total fallback
of the normalizer returns the raw mapping unchanged, and the produced
mapping is non-empty with values summing to 0 — not to 1 within any
tolerance. -/
theorem C3_counterexample :
    Step2.nearby_stations [((0:ℝ), 0)] [⟨"s", 0, Real.pi, 0, []⟩] Real.pi 1
      = [[("s", 0)]]
    ∧ ([("s", (0:ℝ))] ≠ ([] : WeightMap))
    ∧ Utilities.valuesSum [("s", (0:ℝ))] = 0
    ∧ ¬ |Utilities.valuesSum [("s", (0:ℝ))] - 1| ≤ 1e-9 := by
  refine ⟨?_, by simp, by simp [Utilities.valuesSum], ?_⟩
  · simp only [Step2.nearby_stations, List.map_cons, List.map_nil]
    rw [cell_weights_eval_pi]
  · simp only [Utilities.valuesSum, List.map_cons, List.map_nil,
      List.sum_cons, List.sum_nil]
    norm_num

/-- Witness for C3 at a station coincident with the only grid cell: the
produced mapping is its normalized singleton, non-negative and summing
to 1. -/
theorem C3_witness :
    (∀ kv ∈ Step2.station_weights_for_cell [⟨"s", 0, 0, 0, []⟩] 0 0 1200
        6371, 0 ≤ kv.2)
    ∧ (Utilities.valuesSum (Step2.station_weights_for_cell
          [⟨"s", 0, 0, 0, []⟩] 0 0 1200 6371) = 1
       ∨ ∀ kv ∈ Step2.station_weights_for_cell [⟨"s", 0, 0, 0, []⟩] 0 0
          1200 6371, kv.2 = 0) := by
  have h := (C3_weight_mappings [((0:ℝ), 0)] [⟨"s", 0, 0, 0, []⟩]
    [⟨"s", 0, 0, 0, []⟩] 1200 6371 50 10 3 (by norm_num) (by norm_num)).1
  exact h (Step2.station_weights_for_cell [⟨"s", 0, 0, 0, []⟩] 0 0 1200
    6371) (by simp [Step2.nearby_stations])

namespace Utilities

theorem normalize_length (d : WeightMap) :
    (normalize_dict_values d).length = d.length := by
  by_cases h : valuesSum d = 0
  · rw [normalize_of_eq_zero d h]
  · rw [normalize_of_ne_zero d h, List.length_map]

end Utilities

namespace Step4

/-- Look up a station row by identifier (`df.loc[id]`, first match). -/
def getRow (rows : List StationRow) (id : String) : Option StationRow :=
  rows.find? (fun r => r.id == id)

/-- Month `t` of station `id` in the rural table
(`df_rural.loc[rural_stations][timeseries_columns]`); the identifiers of a
rural-weights mapping always come from the rural table itself. -/
def lookupMonth (rural : List StationRow) (id : String) (t : ℕ) :
    Option ℝ :=
  match getRow rural id with
  | some r => r.series.getD t none
  | none => none

/-- The weighted rural composite series for one urban station: per month,
multiply each neighbor series by its weight and sum over neighbors —
pandas `sum` skips NaN, so a missing neighbor month contributes 0 — then
`replace(0.0, NaN)` converts an exact-zero sum to missing. -/
noncomputable def weightedComposite (rural : List StationRow)
    (w : WeightMap) (T : ℕ) : List (Option ℝ) :=
  (List.range T).map (fun t =>
    let s := (w.map (fun kv =>
      match lookupMonth rural kv.1 t with
      | some v => kv.2 * v
      | none => 0)).sum
    if s = 0 then none else some s)

/-- Write a new series into every row carrying the given identifier
(`df.loc[station, timeseries_columns] = ...`); latitude, longitude and
brightness stay untouched. -/
def updateRow (rows : List StationRow) (id : String)
    (newSeries : List (Option ℝ)) : List StationRow :=
  rows.map (fun r => if r.id = id then { r with series := newSeries } else r)

/-- Embeds `steps/step4.py::adjust_urban_anomalies`: the rural table is
fixed from the input table before the loop; then each valid urban station's
entire series is overwritten in place by its weighted rural composite. -/
noncomputable def adjust_urban_anomalies (df : List StationRow)
    (df_urban_valid : List (StationRow × WeightMap))
    (brightness_threshold : ℤ) (T : ℕ) : List StationRow :=
  let df_rural := df_rural_of df brightness_threshold
  df_urban_valid.foldl
    (fun acc uw => updateRow acc uw.1.id (weightedComposite df_rural uw.2 T))
    df

theorem getRow_of_mem_nodup (df : List StationRow) (r : StationRow)
    (hr : r ∈ df) (hnodup : (df.map StationRow.id).Nodup) :
    getRow df r.id = some r := by
  induction df with
  | nil => cases hr
  | cons x tl ih =>
      rw [List.map_cons, List.nodup_cons] at hnodup
      rcases List.mem_cons.mp hr with h | h
      · subst h
        unfold getRow
        rw [List.find?_cons_of_pos _ (by rw [beq_iff_eq])]
      · have hxid : x.id ≠ r.id := by
          intro he
          exact hnodup.1 (he ▸ List.mem_map_of_mem StationRow.id h)
        unfold getRow at ih ⊢
        rw [List.find?_cons_of_neg _ (by rw [beq_iff_eq]; exact hxid)]
        exact ih h hnodup.2

theorem getRow_updateRow_ne (rows : List StationRow) (id id2 : String)
    (s : List (Option ℝ)) (h : id ≠ id2) :
    getRow (updateRow rows id s) id2 = getRow rows id2 := by
  induction rows with
  | nil => rfl
  | cons x tl ih =>
      unfold updateRow at ih ⊢
      rw [List.map_cons]
      by_cases hp : x.id = id2
      · have hx : ¬ x.id = id := fun he => h (he.symm.trans hp)
        rw [if_neg hx]
        unfold getRow
        rw [List.find?_cons_of_pos _ (by rw [beq_iff_eq]; exact hp),
          List.find?_cons_of_pos _ (by rw [beq_iff_eq]; exact hp)]
      · by_cases hx : x.id = id
        · rw [if_pos hx]
          unfold getRow at ih ⊢
          rw [List.find?_cons_of_neg _ (by rw [beq_iff_eq]; exact hp),
            List.find?_cons_of_neg _ (by rw [beq_iff_eq]; exact hp)]
          exact ih
        · rw [if_neg hx]
          unfold getRow at ih ⊢
          rw [List.find?_cons_of_neg _ (by rw [beq_iff_eq]; exact hp),
            List.find?_cons_of_neg _ (by rw [beq_iff_eq]; exact hp)]
          exact ih

theorem getRow_updateRow_eq (rows : List StationRow) (id : String)
    (s : List (Option ℝ)) :
    getRow (updateRow rows id s) id
      = (getRow rows id).map (fun r => { r with series := s }) := by
  induction rows with
  | nil => rfl
  | cons x tl ih =>
      unfold updateRow at ih ⊢
      rw [List.map_cons]
      by_cases hp : x.id = id
      · rw [if_pos hp]
        unfold getRow
        rw [List.find?_cons_of_pos _ (by rw [beq_iff_eq]; exact hp),
          List.find?_cons_of_pos _ (by rw [beq_iff_eq]; exact hp)]
        rfl
      · rw [if_neg hp]
        unfold getRow at ih ⊢
        rw [List.find?_cons_of_neg _ (by rw [beq_iff_eq]; exact hp),
          List.find?_cons_of_neg _ (by rw [beq_iff_eq]; exact hp)]
        exact ih

theorem getRow_fold_ne (comp : StationRow × WeightMap → List (Option ℝ))
    (ups : List (StationRow × WeightMap)) (df : List StationRow)
    (id : String) (h : ∀ uw ∈ ups, uw.1.id ≠ id) :
    getRow (ups.foldl
        (fun acc uw => updateRow acc uw.1.id (comp uw)) df) id
      = getRow df id := by
  induction ups generalizing df with
  | nil => rfl
  | cons v tl ih =>
      rw [List.foldl_cons]
      rw [ih _ (fun uw huw => h uw (List.mem_cons_of_mem v huw))]
      exact getRow_updateRow_ne df v.1.id id (comp v)
        (h v (List.mem_cons_self v tl))

theorem getRow_fold_mem (comp : StationRow × WeightMap → List (Option ℝ))
    (ups : List (StationRow × WeightMap)) (df : List StationRow)
    (uw : StationRow × WeightMap) (hmem : uw ∈ ups)
    (hnodup : (ups.map (fun vw => vw.1.id)).Nodup) :
    getRow (ups.foldl
        (fun acc vw => updateRow acc vw.1.id (comp vw)) df) uw.1.id
      = (getRow df uw.1.id).map (fun r => { r with series := comp uw }) := by
  induction ups generalizing df with
  | nil => cases hmem
  | cons v tl ih =>
      rw [List.map_cons, List.nodup_cons] at hnodup
      rw [List.foldl_cons]
      rcases List.mem_cons.mp hmem with h | h
      · subst h
        have htl : ∀ vw ∈ tl, vw.1.id ≠ uw.1.id := by
          intro vw hvw he
          exact hnodup.1 (he ▸ List.mem_map_of_mem (fun vw => vw.1.id) hvw)
        rw [getRow_fold_ne comp tl _ _ htl]
        exact getRow_updateRow_eq df uw.1.id (comp uw)
      · have hne : v.1.id ≠ uw.1.id := by
          intro he
          exact hnodup.1 (he ▸ List.mem_map_of_mem (fun vw => vw.1.id) h)
        rw [ih _ h hnodup.2,
          getRow_updateRow_ne df v.1.id uw.1.id (comp v) hne]

theorem mem_calculate_rural_weights (df : List StationRow)
    (brightness_threshold : ℤ) (min_nearby_stations : ℕ)
    (earth_radius urban_nearby_radius : ℝ) (u : StationRow)
    (w : WeightMap) :
    (u, w) ∈ calculate_rural_weights df brightness_threshold
        min_nearby_stations earth_radius urban_nearby_radius
    ↔ (u ∈ df ∧ brightness_threshold < u.value
       ∧ w = Utilities.normalize_dict_values
           (ruralRawWeights (df_rural_of df brightness_threshold)
             u.lat u.lon earth_radius urban_nearby_radius)
       ∧ min_nearby_stations ≤ w.length) := by
  unfold calculate_rural_weights df_urban_of
  simp only [List.mem_filter, List.mem_map, decide_eq_true_eq]
  constructor
  · rintro ⟨⟨x, ⟨hxdf, hxval⟩, hxe⟩, hlen⟩
    have hx1 : x = u := congrArg Prod.fst hxe
    subst hx1
    have hw : Utilities.normalize_dict_values
        (ruralRawWeights (df_rural_of df brightness_threshold)
          x.lat x.lon earth_radius urban_nearby_radius) = w :=
      congrArg Prod.snd hxe
    exact ⟨hxdf, hxval, hw.symm, hlen⟩
  · rintro ⟨hu, hval, hw, hlen⟩
    exact ⟨⟨u, ⟨hu, hval⟩, by rw [← hw]⟩, hlen⟩

theorem calc_ids_nodup (df : List StationRow)
    (brightness_threshold : ℤ) (min_nearby_stations : ℕ)
    (earth_radius urban_nearby_radius : ℝ)
    (hnodup : (df.map StationRow.id).Nodup) :
    ((calculate_rural_weights df brightness_threshold min_nearby_stations
        earth_radius urban_nearby_radius).map
      (fun vw : StationRow × WeightMap => vw.1.id)).Nodup := by
  have h1 : ((df_urban_of df brightness_threshold).map
      StationRow.id).Nodup := by
    unfold df_urban_of
    exact List.Nodup.sublist
      (List.Sublist.map StationRow.id (List.filter_sublist df)) hnodup
  have h2 : (((df_urban_of df brightness_threshold).map
      (fun u => (u, Utilities.normalize_dict_values
        (ruralRawWeights (df_rural_of df brightness_threshold)
          u.lat u.lon earth_radius urban_nearby_radius)))).map
        (fun vw : StationRow × WeightMap => vw.1.id)).Nodup := by
    rw [List.map_map]
    exact h1
  have hsub : (calculate_rural_weights df brightness_threshold
      min_nearby_stations earth_radius urban_nearby_radius).Sublist
      ((df_urban_of df brightness_threshold).map
        (fun u => (u, Utilities.normalize_dict_values
          (ruralRawWeights (df_rural_of df brightness_threshold)
            u.lat u.lon earth_radius urban_nearby_radius)))) :=
    List.filter_sublist _
  exact List.Nodup.sublist
    (List.Sublist.map (fun vw : StationRow × WeightMap => vw.1.id) hsub) h2

theorem range_map_getD {α : Type} (f : ℕ → α) (T t : ℕ) (d : α)
    (ht : t < T) : ((List.range T).map f).getD t d = f t := by
  rw [List.getD_eq_getElem?_getD, List.getElem?_map, List.getElem?_range ht]
  rfl

end Step4

/-- C2: an urban station retained by the adjustment — brightness above the
threshold and a rural-neighbor mapping with at least the minimum number of
entries — has its entire series replaced by the weighted rural composite:
each month is the sum over the mapping of weight times the neighbor's value
(missing neighbor months contributing nothing), and an exact-zero sum — in
particular when every contributing neighbor is missing that month — is
stored as missing. -/
theorem C2_adjust_urban_anomalies (df : List StationRow)
    (brightness_threshold : ℤ) (min_nearby_stations : ℕ)
    (earth_radius urban_nearby_radius : ℝ) (T t : ℕ)
    (hnodup : (df.map StationRow.id).Nodup)
    (u : StationRow) (w : WeightMap)
    (hmem : (u, w) ∈ Step4.calculate_rural_weights df brightness_threshold
        min_nearby_stations earth_radius urban_nearby_radius)
    (ht : t < T) :
    (Step4.getRow (Step4.adjust_urban_anomalies df
          (Step4.calculate_rural_weights df brightness_threshold
            min_nearby_stations earth_radius urban_nearby_radius)
          brightness_threshold T) u.id).map StationRow.series
      = some (Step4.weightedComposite
          (Step4.df_rural_of df brightness_threshold) w T)
    ∧ (Step4.weightedComposite (Step4.df_rural_of df brightness_threshold)
          w T).getD t none
        = (let s := (w.map (fun kv =>
              match Step4.lookupMonth
                  (Step4.df_rural_of df brightness_threshold) kv.1 t with
              | some v => kv.2 * v
              | none => 0)).sum
           if s = 0 then none else some s)
    ∧ ((∀ kv ∈ w, Step4.lookupMonth
          (Step4.df_rural_of df brightness_threshold) kv.1 t = none) →
        (Step4.weightedComposite (Step4.df_rural_of df brightness_threshold)
          w T).getD t none = none) := by
  have hfold := Step4.getRow_fold_mem
    (fun vw => Step4.weightedComposite
      (Step4.df_rural_of df brightness_threshold) vw.2 T)
    (Step4.calculate_rural_weights df brightness_threshold
      min_nearby_stations earth_radius urban_nearby_radius) df (u, w) hmem
    (Step4.calc_ids_nodup df brightness_threshold min_nearby_stations
      earth_radius urban_nearby_radius hnodup)
  have hu : u ∈ df :=
    ((Step4.mem_calculate_rural_weights df brightness_threshold
      min_nearby_stations earth_radius urban_nearby_radius u w).mp hmem).1
  have hrow : Step4.getRow df u.id = some u :=
    Step4.getRow_of_mem_nodup df u hu hnodup
  have hgetD : (Step4.weightedComposite
      (Step4.df_rural_of df brightness_threshold) w T).getD t none
      = (let s := (w.map (fun kv =>
            match Step4.lookupMonth
                (Step4.df_rural_of df brightness_threshold) kv.1 t with
            | some v => kv.2 * v
            | none => 0)).sum
         if s = 0 then none else some s) := by
    unfold Step4.weightedComposite
    exact Step4.range_map_getD _ T t none ht
  refine ⟨?_, hgetD, ?_⟩
  · have : Step4.adjust_urban_anomalies df
        (Step4.calculate_rural_weights df brightness_threshold
          min_nearby_stations earth_radius urban_nearby_radius)
        brightness_threshold T
        = (Step4.calculate_rural_weights df brightness_threshold
            min_nearby_stations earth_radius urban_nearby_radius).foldl
          (fun acc vw => Step4.updateRow acc vw.1.id
            (Step4.weightedComposite
              (Step4.df_rural_of df brightness_threshold) vw.2 T)) df :=
      rfl
    rw [this, hfold, hrow]
    rfl
  · intro hall
    rw [hgetD]
    have hzero : (w.map (fun kv =>
        match Step4.lookupMonth
            (Step4.df_rural_of df brightness_threshold) kv.1 t with
        | some v => kv.2 * v
        | none => 0)).sum = 0 := by
      apply List.sum_eq_zero
      intro x hx
      simp only [List.mem_map] at hx
      obtain ⟨kv, hkv, hxe⟩ := hx
      rw [hall kv hkv] at hxe
      exact hxe.symm
    rw [hzero]
    simp

/-- C6: a rural station (brightness not above the threshold) and an urban
station dropped for having fewer than the minimum number of rural neighbors
come out of the adjustment bit-identical to how they entered; only retained
urban stations are rewritten. -/
theorem C6_passthrough (df : List StationRow)
    (brightness_threshold : ℤ) (min_nearby_stations : ℕ)
    (earth_radius urban_nearby_radius : ℝ) (T : ℕ)
    (hnodup : (df.map StationRow.id).Nodup)
    (r : StationRow) (hr : r ∈ df)
    (hcase : ¬ brightness_threshold < r.value
      ∨ (Utilities.normalize_dict_values
          (Step4.ruralRawWeights
            (Step4.df_rural_of df brightness_threshold) r.lat r.lon
            earth_radius urban_nearby_radius)).length
          < min_nearby_stations) :
    Step4.getRow (Step4.adjust_urban_anomalies df
        (Step4.calculate_rural_weights df brightness_threshold
          min_nearby_stations earth_radius urban_nearby_radius)
        brightness_threshold T) r.id = some r := by
  have hinj := List.inj_on_of_nodup_map hnodup
  have hne : ∀ uw ∈ Step4.calculate_rural_weights df brightness_threshold
      min_nearby_stations earth_radius urban_nearby_radius,
      uw.1.id ≠ r.id := by
    rintro ⟨v, x⟩ huw he
    obtain ⟨hv, hval, hx, hlen⟩ :=
      (Step4.mem_calculate_rural_weights df brightness_threshold
        min_nearby_stations earth_radius urban_nearby_radius v x).mp huw
    have hvr : v = r := hinj hv hr he
    subst hvr
    rcases hcase with hc | hc
    · exact hc hval
    · rw [hx] at hlen
      omega
  have : Step4.adjust_urban_anomalies df
      (Step4.calculate_rural_weights df brightness_threshold
        min_nearby_stations earth_radius urban_nearby_radius)
      brightness_threshold T
      = (Step4.calculate_rural_weights df brightness_threshold
          min_nearby_stations earth_radius urban_nearby_radius).foldl
        (fun acc vw => Step4.updateRow acc vw.1.id
          (Step4.weightedComposite
            (Step4.df_rural_of df brightness_threshold) vw.2 T)) df :=
    rfl
  rw [this, Step4.getRow_fold_ne _ _ _ _ hne]
  exact Step4.getRow_of_mem_nodup df r hr hnodup

theorem haversine_same (lat lon R : ℝ) :
    Utilities.haversine_distance lat lon lat lon R = 0 := by
  simp only [Utilities.haversine_distance]
  have ha : Real.sin (|lat - lat| / 2) ^ 2
      + Real.cos lat * Real.cos lat * Real.sin (|lon - lon| / 2) ^ 2
      = 0 := by
    rw [sub_self lat, sub_self lon, abs_zero, zero_div, Real.sin_zero]
    ring
  rw [ha, min_eq_left zero_le_one, max_self, sub_zero, Real.sqrt_zero,
    Real.sqrt_one, atan2_zero_of_pos 1 one_pos]
  ring

/-- Concrete sample urban station: brightness 11, two-month series. -/
def sampleUrban : StationRow := ⟨"u", 0, 0, 11, [some 5, some 5]⟩

/-- Concrete sample rural station at the same location: brightness 5, one
present month and one missing month. -/
def sampleRural : StationRow := ⟨"r", 0, 0, 5, [some 2, none]⟩

/-- The sample urban station's normalized rural-neighbor mapping. -/
noncomputable def sampleW : WeightMap :=
  Utilities.normalize_dict_values (Step4.ruralRawWeights
    (Step4.df_rural_of [sampleUrban, sampleRural] 10) 0 0 6371 1200)

theorem sample_df_rural :
    Step4.df_rural_of [sampleUrban, sampleRural] 10 = [sampleRural] := rfl

theorem sample_raw :
    Step4.ruralRawWeights [sampleRural] 0 0 6371 1200
      = [(sampleRural.id, Utilities.linearly_decreasing_weight
          (Utilities.haversine_distance 0 0 sampleRural.lat sampleRural.lon
            6371) 1200)] := by
  have hcond : decide (Utilities.haversine_distance 0 0 sampleRural.lat
      sampleRural.lon 6371 ≤ 1200) = true := by
    have h0 : Utilities.haversine_distance 0 0 sampleRural.lat
        sampleRural.lon 6371 = 0 := haversine_same 0 0 6371
    exact decide_eq_true (by rw [h0]; norm_num)
  unfold Step4.ruralRawWeights
  simp only [List.filter_cons, List.filter_nil, hcond, if_true,
    List.map_cons, List.map_nil]

/-- Witness for C2 on the two-station sample: the urban station is retained
(threshold 10, one rural neighbor required) and its stored series is the
weighted rural composite. -/
theorem C2_witness :
    (Step4.getRow (Step4.adjust_urban_anomalies [sampleUrban, sampleRural]
          (Step4.calculate_rural_weights [sampleUrban, sampleRural] 10 1
            6371 1200) 10 2) sampleUrban.id).map StationRow.series
      = some (Step4.weightedComposite
          (Step4.df_rural_of [sampleUrban, sampleRural] 10) sampleW 2) := by
  have hnodup : ([sampleUrban, sampleRural].map StationRow.id).Nodup := by
    decide
  have hlen : 1 ≤ sampleW.length := by
    unfold sampleW
    rw [Utilities.normalize_length, sample_df_rural, sample_raw]
    norm_num
  have hmem : (sampleUrban, sampleW) ∈ Step4.calculate_rural_weights
      [sampleUrban, sampleRural] 10 1 6371 1200 := by
    apply (Step4.mem_calculate_rural_weights [sampleUrban, sampleRural] 10 1
      6371 1200 sampleUrban sampleW).mpr
    exact ⟨List.mem_cons_self _ _, by decide, rfl, hlen⟩
  exact (C2_adjust_urban_anomalies [sampleUrban, sampleRural] 10 1 6371 1200
    2 0 hnodup sampleUrban sampleW hmem (by norm_num)).1

/-- Witness for C6 on the two-station sample: the rural station passes
through the adjustment unchanged. -/
theorem C6_witness :
    Step4.getRow (Step4.adjust_urban_anomalies [sampleUrban, sampleRural]
        (Step4.calculate_rural_weights [sampleUrban, sampleRural] 10 1 6371
          1200) 10 2) sampleRural.id = some sampleRural := by
  have hnodup : ([sampleUrban, sampleRural].map StationRow.id).Nodup := by
    decide
  exact C6_passthrough [sampleUrban, sampleRural] 10 1 6371 1200 2 hnodup
    sampleRural (by simp) (Or.inl (by decide))

namespace Step6

/-- Embeds `steps/step6.py::combine_land_ocean_anomalies` for one grid
point: align the land series to the ocean series' end (a truncation to the
ocean's length for series on the common monthly time axis), derive the
confidence weights `1 - nanCount / timeLength` from the ocean time length,
multiply each series by its weight (NaN propagating), `fillna(0)`, add, and
convert an exact-zero sum back to missing
(`where(ds_combined != 0.0, nan)`). -/
noncomputable def combine_land_ocean_point (land ocean : List (Option ℝ)) :
    List (Option ℝ) :=
  let land := land.take ocean.length
  let time_length := ocean.length
  let ocean_nan := ocean.countP (fun x => x.isNone)
  let land_nan := land.countP (fun x => x.isNone)
  let ocean_weight : ℝ := 1 - (ocean_nan : ℝ) / (time_length : ℝ)
  let land_weight : ℝ := 1 - (land_nan : ℝ) / (time_length : ℝ)
  (List.range time_length).map (fun t =>
    let lw : ℝ := match land.getD t none with
      | some v => v * land_weight
      | none => 0
    let ow : ℝ := match ocean.getD t none with
      | some v => v * ocean_weight
      | none => 0
    let c := lw + ow
    if c = 0 then none else some c)

end Step6

/-- C8 counterexample: land fully present with the value 0.0 at the first
timestep, ocean fully missing — the blend stores missing, not the land
value 0.0, at that timestep. -/
theorem C8_counterexample :
    Step6.combine_land_ocean_point [some 0, some 1] [none, none]
      = [none, some 1]
    ∧ ([some (0:ℝ), some 1].countP (fun x => x.isNone) = 0)
    ∧ (([none, none] : List (Option ℝ)).countP (fun x => x.isNone) = 2)
    ∧ (Step6.combine_land_ocean_point [some 0, some 1] [none, none]).getD 0
        none
      ≠ [some (0:ℝ), some 1].getD 0 none := by
  have heval : Step6.combine_land_ocean_point [some 0, some 1] [none, none]
      = [none, some 1] := by
    unfold Step6.combine_land_ocean_point
    norm_num [List.range_succ, List.countP_cons]
  refine ⟨heval, by norm_num [List.countP_cons], by norm_num
    [List.countP_cons], ?_⟩
  rw [heval]
  simp

/-- C8 amended: at a grid point whose land series is fully present and
whose ocean series is fully missing over the common range, the blend
reproduces the land value at every timestep whose land value is nonzero; a
land value of exactly 0.0 is converted to missing by the final
zero-to-missing mask. -/
theorem C8_blend_full_land_no_ocean (land ocean : List (Option ℝ)) (t : ℕ)
    (hlen : land.length = ocean.length)
    (hland : ∀ x ∈ land, x.isSome)
    (hocean : ∀ x ∈ ocean, x = none)
    (ht : t < ocean.length) (v : ℝ) (hv : land.getD t none = some v) :
    (Step6.combine_land_ocean_point land ocean).getD t none
      = (if v = 0 then none else some v) := by
  have htake : land.take ocean.length = land := by
    rw [← hlen]
    exact List.take_length land
  have hlnan : land.countP (fun x => x.isNone) = 0 := by
    rw [List.countP_eq_zero]
    intro x hx
    cases x with
    | none => exact absurd (hland none hx) (by simp)
    | some v0 => simp
  have hogetD : ocean.getD t none = none := by
    rw [List.getD_eq_getElem?_getD]
    rcases h : ocean[t]? with _ | x
    · rfl
    · have hx : x ∈ ocean := List.getElem?_mem h
      rw [hocean x hx]
      rfl
  unfold Step6.combine_land_ocean_point
  rw [Step4.range_map_getD _ _ _ _ ht]
  simp only [htake, hlnan, hv, hogetD]
  have hval : v * (1 - (Nat.cast 0) / (ocean.length : ℝ)) + 0 = v := by
    rw [Nat.cast_zero, zero_div]
    ring
  rw [hval]

/-- Witness for C8: a fully present land series against a fully missing
ocean series reproduces the nonzero land value at timestep 0. -/
theorem C8_witness :
    (Step6.combine_land_ocean_point [some 1, some 2] [none, none]).getD 0
        none = some 1 := by
  have h := C8_blend_full_land_no_ocean [some 1, some 2] [none, none] 0
    rfl
    (by intro x hx; simp only [List.mem_cons, List.not_mem_nil, or_false]
        at hx
        rcases hx with h | h <;> subst h <;> rfl)
    (by intro x hx; simp only [List.mem_cons, List.not_mem_nil, or_false]
        at hx
        rcases hx with h | h <;> subst h <;> rfl)
    (by norm_num) 1 rfl
  rw [h]
  norm_num

namespace SpecStep3

/-- The inclusive year range `[a, b]` as a list. -/
def yearsIn (a b : ℤ) : List ℤ :=
  (List.range (b + 1 - a).toNat).map (fun k : ℕ => a + (k : ℤ))

/-- Modelled from the spec: the Step-3 land-anomaly implementation invoked
by `main/run.py` as `step3.step3(df, START_YEAR, END_YEAR,
BASELINE_START_YEAR, BASELINE_END_YEAR)` is not present under `src/` — the
checked-in `steps/step3.py` is the alternate grid-building variant with a
different signature.  Following spec §4.4, a (station, calendar-month)
series maps each year of the analysis range to an optional value; this
counts its non-missing values inside the baseline year range. -/
def baselineCount (f : ℤ → Option ℝ) (bStart bEnd : ℤ) : ℕ :=
  ((yearsIn bStart bEnd).filterMap f).length

/-- Modelled from the spec: the mean of the non-missing values of the
series over an inclusive year range. -/
noncomputable def rangeMean (f : ℤ → Option ℝ) (a b : ℤ) : ℝ :=
  ((yearsIn a b).filterMap f).sum / ((yearsIn a b).filterMap f).length

/-- Modelled from the spec (§4.4 state machine): the per-(station, month)
anomaly for year `y` — the raw value minus the baseline-period mean when at
least 20 non-missing baseline values exist, else minus the full-range mean;
a missing raw value stays missing. -/
noncomputable def anomaly (f : ℤ → Option ℝ)
    (startYear endYear bStart bEnd : ℤ) (y : ℤ) : Option ℝ :=
  (f y).map (fun v =>
    if 20 ≤ baselineCount f bStart bEnd then v - rangeMean f bStart bEnd
    else v - rangeMean f startYear endYear)

end SpecStep3

/-- C1: when the station/month has at least 20 non-missing baseline values
the anomaly is the raw value minus the baseline-period mean, otherwise it
is the raw value minus the full-range mean; the rule switches exactly at
count 20. -/
theorem C1_baseline_anomaly (f : ℤ → Option ℝ)
    (startYear endYear bStart bEnd y : ℤ) (v : ℝ) (hy : f y = some v) :
    (20 ≤ SpecStep3.baselineCount f bStart bEnd →
      SpecStep3.anomaly f startYear endYear bStart bEnd y
        = some (v - SpecStep3.rangeMean f bStart bEnd))
    ∧ (SpecStep3.baselineCount f bStart bEnd < 20 →
      SpecStep3.anomaly f startYear endYear bStart bEnd y
        = some (v - SpecStep3.rangeMean f startYear endYear)) := by
  constructor
  · intro h
    unfold SpecStep3.anomaly
    rw [hy]
    simp only [Option.map_some']
    rw [if_pos h]
  · intro h
    unfold SpecStep3.anomaly
    rw [hy]
    simp only [Option.map_some']
    rw [if_neg (not_le.2 h)]

/-- A sample series with exactly 20 valid baseline values
(years 1961–1980 inside the 1961–1990 baseline window). -/
def sampleSeries20 : ℤ → Option ℝ :=
  fun y => if 1961 ≤ y ∧ y ≤ 1980 then some 1 else none

/-- A sample series with exactly 19 valid baseline values
(years 1961–1979). -/
def sampleSeries19 : ℤ → Option ℝ :=
  fun y => if 1961 ≤ y ∧ y ≤ 1979 then some 1 else none

/-- Witness for C1 at the fallback boundary: with exactly 20 valid baseline
values the baseline mean is used, with exactly 19 the full-range mean is
used. -/
theorem C1_witness :
    (SpecStep3.baselineCount sampleSeries20 1961 1990 = 20
      ∧ SpecStep3.anomaly sampleSeries20 1880 2023 1961 1990 1961
          = some (1 - SpecStep3.rangeMean sampleSeries20 1961 1990))
    ∧ (SpecStep3.baselineCount sampleSeries19 1961 1990 = 19
      ∧ SpecStep3.anomaly sampleSeries19 1880 2023 1961 1990 1961
          = some (1 - SpecStep3.rangeMean sampleSeries19 1880 2023)) := by
  have h20 : SpecStep3.baselineCount sampleSeries20 1961 1990 = 20 := by
    rfl
  have h19 : SpecStep3.baselineCount sampleSeries19 1961 1990 = 19 := by
    rfl
  have hv20 : sampleSeries20 1961 = some 1 := by
    unfold sampleSeries20
    rw [if_pos (by norm_num)]
  have hv19 : sampleSeries19 1961 = some 1 := by
    unfold sampleSeries19
    rw [if_pos (by norm_num)]
  refine ⟨⟨h20, ?_⟩, ⟨h19, ?_⟩⟩
  · exact (C1_baseline_anomaly sampleSeries20 1880 2023 1961 1990 1961 1
      hv20).1 (by rw [h20])
  · exact (C1_baseline_anomaly sampleSeries19 1880 2023 1961 1990 1961 1
      hv19).2 (by rw [h19]; norm_num)
